import Mathlib

/-!
Verification of the point-generation / nearest-point demo
(`nikolausmayer/cpp11presentation`).

The repository contains near-duplicate C++ files implementing one algorithm
with different ownership idioms:
  * a `shared_ptr` variant (`src/code/cpp11/main.cpp`, first two segments):
    `NearestToOrigin` returns `std::tuple<Pos2d_cptr, float>`, starting from
    `min_point = nullptr` and `min_distance = FLT_MAX`;
  * a raw-pointer variant (`src/unnamed/part_000` and the last segment of
    `main.cpp`): `NearestToOrigin(points, min_distance&)` tracks
    `min_index` (initialised to `0`) and returns `points[min_index]`.

Float model: every finite IEEE-754 binary32 value is an integer multiple of
2^(-149), and `FLT_MAX = (2^24 - 1) * 2^104`.  We therefore represent a
`float` value by an integer in units of 2^(-149).  Absolute value and
comparison of floats are exact on the represented values; `float` addition
rounds the exact sum to the nearest representable value (ties to even),
which `fround` below implements executably on the scaled integers.  A sum
that overflows past `FLT_MAX` rounds, in IEEE terms, to +infinity exactly
when the round-to-nearest value (with unbounded exponent) reaches 2^128; in
this model such sums are kept as their unbounded rounded value, which is
then `> floatMax`.  The only comparisons the program performs are
`distance < min_distance` with `min_distance <= FLT_MAX`, and an overflowed
value fails that test exactly as +infinity does, so the model and IEEE
arithmetic agree on every branch the program takes.  (The sum of two
binary32 values is exact in double precision, so even under
`FLT_EVAL_METHOD = 2` the single final rounding coincides with `fround`.)
-/

set_option maxRecDepth 10000

/-- Fuel-bounded base-2 logarithm on naturals: for `1 ≤ n < 2^fuel` it
computes `⌊log2 n⌋` by repeated halving.  (Fuel keeps the recursion
structural so that the kernel can evaluate it.) -/
def log2n : ℕ → ℕ → ℕ
  | 0, _ => 0
  | fuel+1, n => if 2 ≤ n then log2n fuel (n / 2) + 1 else 0

/-- Round the exact quotient `N / D` to the nearest integer, ties to even —
the IEEE-754 default rounding applied to a nonnegative quotient. -/
def rdiv (N D : ℕ) : ℕ :=
  let q := N / D
  let r := N % D
  if 2 * r < D then q else if D < 2 * r then q + 1 else
  if q % 2 = 0 then q else q + 1

/-- Round a nonnegative exact value `u` (in units of 2^(-149)) to the
nearest binary32-representable value, ties to even.  The significand scale
is `2^(⌊log2 u⌋ - 23)`; truncated subtraction makes the scale bottom out at
`2^0`, i.e. at the subnormal unit 2^(-149), exactly as binary32 does. -/
def froundN (u : ℕ) : ℕ :=
  if u = 0 then 0 else
  let t := log2n 600 u - 23
  rdiv u (2 ^ t) * 2 ^ t

/-- Binary32 round-to-nearest-even on a signed exact value in units of
2^(-149).  Rounding is sign-symmetric, as in IEEE-754. -/
def fround (u : ℤ) : ℤ :=
  if u < 0 then -(froundN u.natAbs : ℤ) else (froundN u.natAbs : ℤ)

/-- The binary32 value of the nonnegative decimal fraction `num / den`, in
units of 2^(-149): this is what a C++ `float` literal denotes. -/
def flitN (num den : ℕ) : ℕ :=
  if num = 0 ∨ den = 0 then 0 else
  let N := num * 2 ^ 149
  let t := log2n 600 (N / den) - 23
  rdiv N (den * 2 ^ t) * 2 ^ t

/-- The binary32 value of the decimal fraction `n / d` (signed), in units
of 2^(-149): e.g. `flit 1 10` is the C++ literal `0.1f`. -/
def flit (n : ℤ) (d : ℕ) : ℤ :=
  if n < 0 then -(flitN n.natAbs d : ℤ) else (flitN n.natAbs d : ℤ)

/-- `std::numeric_limits<float>::max() = (2^24 - 1) * 2^104`, in units of
2^(-149). -/
def floatMax : ℤ := (2 ^ 24 - 1) * 2 ^ 253

/-- A point in 2d space (`struct Pos2d` / `struct Point`: two `float`
coordinates, here in units of 2^(-149)). -/
structure Point where
  x : ℤ
  y : ℤ
deriving DecidableEq

/-- `float ManhattanToOrigin(point)`: `std::abs(point->x) + std::abs(point->y)`
(`std::fabs` in the duplicated files — identical on `float`).  Absolute
value of a float is exact; the addition rounds. -/
def ManhattanToOrigin (p : Point) : ℤ :=
  fround (|p.x| + |p.y|)

/-- `bool PointIsNearOrigin(point)` (`src/unnamed/part_000`):
`ManhattanToOrigin(point) < 0.5f`.  The literal `0.5f` is exact. -/
def PointIsNearOrigin (p : Point) : Bool :=
  ManhattanToOrigin p < flit 1 2

/-- The `Pos2dIsNearOrigin` lambda of `src/code/cpp11/main.cpp` — same
test as `PointIsNearOrigin`. -/
def Pos2dIsNearOrigin (p : Point) : Bool :=
  ManhattanToOrigin p < flit 1 2

namespace Cpp11

/-- The loop body of the `shared_ptr` variant's `NearestToOrigin`
(`src/code/cpp11/main.cpp`, lines 119-135): the accumulator is
`(min_point, min_distance)`, updated whenever
`ManhattanToOrigin(point) < min_distance`. -/
def NearestLoop : List Point → Option Point × ℤ → Option Point × ℤ
  | [], acc => acc
  | p :: ps, (best, md) =>
      NearestLoop ps
        (if ManhattanToOrigin p < md then (some p, ManhattanToOrigin p)
         else (best, md))

/-- `std::tuple<Pos2d_cptr, float> NearestToOrigin(points)`:
`min_point = nullptr` (here `none`), `min_distance = FLT_MAX`, then the
range-`for` scan. -/
def NearestToOrigin (points : List Point) : Option Point × ℤ :=
  NearestLoop points (none, floatMax)

/-- The counting loop of `main` (`src/code/cpp11/main.cpp`, lines 149-152):
`for (auto point : points) if (Pos2dIsNearOrigin(point)) ++nearOrigin`. -/
def CountLoop : List Point → ℕ → ℕ
  | [], n => n
  | p :: ps, n => CountLoop ps (if Pos2dIsNearOrigin p then n + 1 else n)

/-- The value of `nearOrigin` after the counting loop, starting from 0. -/
def nearOrigin (points : List Point) : ℕ :=
  CountLoop points 0

end Cpp11

namespace RawPtr

/-- The loop of the raw-pointer variant's `NearestToOrigin`
(`src/unnamed/part_000`, lines 113-128): iterates `i = 0 .. points.size()-1`
over `points[i]`, tracking `(min_index, min_distance)` with `min_index`
initialised to `0`.  The fuel argument is the number of remaining
iterations (`points.size() - i`). -/
def NearestAux (points : List Point) : ℕ → ℕ → ℕ → ℤ → ℕ × ℤ
  | 0, _, mi, md => (mi, md)
  | fuel+1, i, mi, md =>
      match points[i]? with
      | some p =>
          if ManhattanToOrigin p < md then
            NearestAux points fuel (i + 1) i (ManhattanToOrigin p)
          else
            NearestAux points fuel (i + 1) mi md
      | none => NearestAux points fuel (i + 1) mi md

/-- `Point* NearestToOrigin(points, min_distance&)`: runs the scan and
returns `points[min_index]` together with the final `min_distance`.  The
indexed access is modelled by `points[min_index]?`; on the empty collection
it is `none`, standing for the out-of-bounds read `points[0]` the C++
performs there (undefined behaviour). -/
def NearestToOrigin (points : List Point) : Option Point × ℤ :=
  let r := NearestAux points points.length 0 0 floatMax
  (points[r.1]?, r.2)

/-- The counting loop of `main` (`src/unnamed/part_000`, lines 137-140):
`for (unsigned i = 0; i < points.size(); ++i) if (PointIsNearOrigin(points[i])) ++nearOrigin`. -/
def CountAux (points : List Point) : ℕ → ℕ → ℕ → ℕ
  | 0, _, n => n
  | fuel+1, i, n =>
      CountAux points fuel (i + 1)
        (match points[i]? with
         | some p => if PointIsNearOrigin p then n + 1 else n
         | none => n)

/-- The value of `nearOrigin` after the indexed counting loop. -/
def nearOrigin (points : List Point) : ℕ :=
  CountAux points points.length 0 0

end RawPtr

/-- Modelled from the spec: the threshold-parametric aggregate
`count_near_origin(collection, threshold)` of section 4.4.  The source
hardcodes the threshold `0.5f` inside `PointIsNearOrigin`; the parametric
operation exists only in the spec.  It counts the elements whose Manhattan
distance is strictly below the threshold (a float value, in units of
2^(-149)). -/
def countNearOrigin (threshold : ℤ) (points : List Point) : ℕ :=
  points.countP (fun p => ManhattanToOrigin p < threshold)

/-- Modelled from the spec: the Random Number Source's `next()` "returns a
value drawn uniformly and independently from the closed interval
[-1.0, 1.0]" (section 4.1).  The compiled `RandomNumber` calls
`std::uniform_real_distribution<float>(-1.f, 1.f)`, whose algorithm lives
in the standard library, not in this repository; per its contract it maps a
unit-interval draw `u` affinely onto the requested interval, which is what
is modelled here. -/
def RandomNumber (u : ℚ) : ℚ :=
  -1 + u * (1 - (-1))

/-- Reference recursion for both `NearestToOrigin` loops: given the points
still to scan and the current `min_distance` cap, return the (relative)
index of the point the loop ends up selecting (`none` if no point beats the
cap) and the final `min_distance`. -/
def selNi : List Point → ℤ → Option ℕ × ℤ
  | [], md => (none, md)
  | p :: ps, md =>
      if ManhattanToOrigin p < md then
        let r := selNi ps (ManhattanToOrigin p)
        (some (match r.1 with | none => 0 | some j => j + 1), r.2)
      else
        let r := selNi ps md
        (r.1.map (· + 1), r.2)

/-! ## Arithmetic facts about the float model -/

theorem log2n_le : ∀ (f u : ℕ), 1 ≤ u → u < 2 ^ f → 2 ^ log2n f u ≤ u := by
  intro f
  induction f with
  | zero => intro u h1 h2; omega
  | succ f ih =>
    intro u h1 h2
    rw [log2n]
    split
    · rename_i h
      have hu2 : 1 ≤ u / 2 := by omega
      have hlt : u / 2 < 2 ^ f := by
        rw [pow_succ] at h2; omega
      have hrec := ih (u / 2) hu2 hlt
      calc 2 ^ (log2n f (u / 2) + 1) = 2 ^ log2n f (u / 2) * 2 := by rw [pow_succ]
        _ ≤ (u / 2) * 2 := by omega
        _ ≤ u := by omega
    · simpa using h1

theorem rdiv_le (N D : ℕ) : rdiv N D ≤ N / D + 1 := by
  simp only [rdiv]
  split
  · omega
  · split
    · omega
    · split <;> omega

theorem froundN_le {u : ℕ} (h : u ≤ 2 ^ 150) : froundN u ≤ 2 ^ 150 + 2 ^ 127 := by
  simp only [froundN]
  split
  · omega
  · rename_i h0
    have h1 : 1 ≤ u := Nat.one_le_iff_ne_zero.mpr h0
    have hf : u < 2 ^ 600 := lt_of_le_of_lt h (by norm_num)
    have hlog : 2 ^ log2n 600 u ≤ u := log2n_le 600 u h1 hf
    have hle : log2n 600 u ≤ 150 := by
      by_contra hc
      push_neg at hc
      have h2 : 2 ^ 151 ≤ 2 ^ log2n 600 u := Nat.pow_le_pow_right (by omega) (by omega)
      have h3 : (2:ℕ) ^ 151 ≤ 2 ^ 150 := le_trans h2 (le_trans hlog h)
      norm_num at h3
    have hd : 2 ^ (log2n 600 u - 23) ≤ 2 ^ 127 :=
      Nat.pow_le_pow_right (by omega) (by omega)
    calc rdiv u (2 ^ (log2n 600 u - 23)) * 2 ^ (log2n 600 u - 23)
        ≤ (u / 2 ^ (log2n 600 u - 23) + 1) * 2 ^ (log2n 600 u - 23) :=
          Nat.mul_le_mul_right _ (rdiv_le _ _)
      _ = u / 2 ^ (log2n 600 u - 23) * 2 ^ (log2n 600 u - 23) + 2 ^ (log2n 600 u - 23) := by
          ring
      _ ≤ u + 2 ^ 127 := add_le_add (Nat.div_mul_le_self _ _) hd
      _ ≤ 2 ^ 150 + 2 ^ 127 := by omega

theorem fround_nonneg {u : ℤ} (h : 0 ≤ u) : 0 ≤ fround u := by
  unfold fround
  split
  · omega
  · exact Int.natCast_nonneg _

theorem manhattan_nonneg (p : Point) : 0 ≤ ManhattanToOrigin p :=
  fround_nonneg (add_nonneg (abs_nonneg _) (abs_nonneg _))

theorem flit_one_one : flit 1 1 = 2 ^ 149 := by decide

theorem two_pow_sum_lt_floatMax : (2:ℤ) ^ 150 + 2 ^ 127 < floatMax := by decide

theorem manhattan_lt_floatMax {p : Point} (hx : |p.x| ≤ flit 1 1) (hy : |p.y| ≤ flit 1 1) :
    ManhattanToOrigin p < floatMax := by
  have hx' : |p.x| ≤ 2 ^ 149 := flit_one_one ▸ hx
  have hy' : |p.y| ≤ 2 ^ 149 := flit_one_one ▸ hy
  have hsum : |p.x| + |p.y| ≤ 2 ^ 150 := by
    have : (2:ℤ) ^ 149 + 2 ^ 149 = 2 ^ 150 := by ring
    omega
  have hsum0 : 0 ≤ |p.x| + |p.y| := add_nonneg (abs_nonneg _) (abs_nonneg _)
  unfold ManhattanToOrigin fround
  split
  · exact lt_of_le_of_lt (by omega) (lt_of_le_of_lt (by positivity) two_pow_sum_lt_floatMax)
  · have hna : (|p.x| + |p.y|).natAbs ≤ 2 ^ 150 := by omega
    have hfr := froundN_le hna
    have : ((froundN (|p.x| + |p.y|).natAbs : ℕ) : ℤ) ≤ (2:ℤ) ^ 150 + 2 ^ 127 := by
      exact_mod_cast hfr
    exact lt_of_le_of_lt this two_pow_sum_lt_floatMax

/-! ## The selection recursion `selNi` characterised -/

theorem selNi_cons_lt {p : Point} {ps : List Point} {md : ℤ}
    (h : ManhattanToOrigin p < md) :
    selNi (p :: ps) md =
      (some (match (selNi ps (ManhattanToOrigin p)).1 with
             | none => 0 | some j => j + 1),
       (selNi ps (ManhattanToOrigin p)).2) := by
  simp [selNi, h]

theorem selNi_cons_ge {p : Point} {ps : List Point} {md : ℤ}
    (h : ¬ ManhattanToOrigin p < md) :
    selNi (p :: ps) md = ((selNi ps md).1.map (· + 1), (selNi ps md).2) := by
  simp [selNi, h]

/-- Full characterisation of `selNi`: if it selects nothing, no scanned point
beats the cap and the cap is returned unchanged; if it selects index `j`,
then `j` is in range, the returned distance is the distance of point `j`, it
beats the cap, it is a lower bound for all scanned points, and every point
strictly before `j` has strictly larger distance (first-occurrence
tie-break). -/
theorem selNi_spec (ps : List Point) : ∀ md : ℤ,
    ((selNi ps md).1 = none →
      (selNi ps md).2 = md ∧
      ∀ k (hk : k < ps.length), ¬ ManhattanToOrigin ps[k] < md) ∧
    (∀ j, (selNi ps md).1 = some j →
      ∃ hj : j < ps.length,
        ManhattanToOrigin ps[j] = (selNi ps md).2 ∧
        (selNi ps md).2 < md ∧
        (∀ k (hk : k < ps.length), (selNi ps md).2 ≤ ManhattanToOrigin ps[k]) ∧
        (∀ k (hk : k < j), (selNi ps md).2 < ManhattanToOrigin ps[k])) := by
  induction ps with
  | nil =>
      intro md
      constructor
      · intro _
        refine ⟨rfl, fun k hk => absurd hk (by simp)⟩
      · intro j hj
        simp [selNi] at hj
  | cons p ps ih =>
      intro md
      by_cases hlt : ManhattanToOrigin p < md
      · -- the head beats the cap: `selNi` recurses with the tightened cap
        rw [selNi_cons_lt hlt]
        rcases hr : (selNi ps (ManhattanToOrigin p)).1 with _ | j'
        · -- nothing in the tail beats `ManhattanToOrigin p`: head selected
          obtain ⟨hsnd, hall⟩ := (ih (ManhattanToOrigin p)).1 hr
          constructor
          · intro hcontra; simp [hr] at hcontra
          · intro j hj
            simp only [hr] at hj
            obtain rfl : j = 0 := by simpa using hj.symm
            refine ⟨by simp, ?_, ?_, ?_, ?_⟩
            · simp [hsnd]
            · simpa [hsnd] using hlt
            · intro k hk
              match k, hk with
              | 0, _ => simp [hsnd]
              | k + 1, hk =>
                  have := hall k (by simpa using hk)
                  simp only [List.getElem_cons_succ, hsnd]
                  omega
            · intro k hk; omega
        · -- the tail improves even on the head's distance
          obtain ⟨hj', hdist, hlt2, ha, hb⟩ :=
            (ih (ManhattanToOrigin p)).2 j' hr
          constructor
          · intro hcontra; simp [hr] at hcontra
          · intro j hj
            simp only [hr] at hj
            obtain rfl : j = j' + 1 := by simpa using hj.symm
            refine ⟨by simpa using Nat.succ_lt_succ hj', ?_, ?_, ?_, ?_⟩
            · simpa using hdist
            · exact lt_trans hlt2 hlt
            · intro k hk
              match k, hk with
              | 0, _ => simpa using le_of_lt hlt2
              | k + 1, hk => simpa using ha k (by simpa using hk)
            · intro k hk
              match k, hk with
              | 0, _ => simpa using hlt2
              | k + 1, hk => simpa using hb k (by omega)
      · -- the head does not beat the cap: shift the tail's answer by one
        rw [selNi_cons_ge hlt]
        constructor
        · intro hnone
          have hr : (selNi ps md).1 = none := Option.map_eq_none'.mp hnone
          obtain ⟨hsnd, hall⟩ := (ih md).1 hr
          refine ⟨hsnd, ?_⟩
          intro k hk
          match k, hk with
          | 0, _ => simpa using hlt
          | k + 1, hk => simpa using hall k (by simpa using hk)
        · intro j hj
          obtain ⟨j', hr, rfl⟩ := Option.map_eq_some'.mp hj
          obtain ⟨hj', hdist, hlt2, ha, hb⟩ := (ih md).2 j' hr
          refine ⟨by simpa using Nat.succ_lt_succ hj', ?_, hlt2, ?_, ?_⟩
          · simpa using hdist
          · intro k hk
            match k, hk with
            | 0, _ =>
                have : md ≤ ManhattanToOrigin p := not_lt.mp hlt
                simpa using le_trans (le_of_lt hlt2) this
            | k + 1, hk => simpa using ha k (by simpa using hk)
          · intro k hk
            match k, hk with
            | 0, _ =>
                have : md ≤ ManhattanToOrigin p := not_lt.mp hlt
                simpa using lt_of_lt_of_le hlt2 this
            | k + 1, hk => simpa using hb k (by omega)

/-! ## The two variants' loops, related to `selNi` -/

theorem Cpp11.NearestLoop_selNi : ∀ (ps : List Point) (b : Option Point) (md : ℤ),
    Cpp11.NearestLoop ps (b, md) =
      ((match (selNi ps md).1 with | none => b | some j => ps[j]?),
       (selNi ps md).2) := by
  intro ps
  induction ps with
  | nil => intro b md; rfl
  | cons p ps ih =>
      intro b md
      by_cases hlt : ManhattanToOrigin p < md
      · have hstep : Cpp11.NearestLoop (p :: ps) (b, md) =
            Cpp11.NearestLoop ps (some p, ManhattanToOrigin p) := by
          simp [Cpp11.NearestLoop, hlt]
        rw [hstep, ih, selNi_cons_lt hlt]
        rcases hr : (selNi ps (ManhattanToOrigin p)).1 with _ | j' <;> simp [hr]
      · have hstep : Cpp11.NearestLoop (p :: ps) (b, md) =
            Cpp11.NearestLoop ps (b, md) := by
          simp [Cpp11.NearestLoop, hlt]
        rw [hstep, ih, selNi_cons_ge hlt]
        rcases hr : (selNi ps md).1 with _ | j' <;> simp [hr]

theorem RawPtr.NearestAux_selNi (full : List Point) :
    ∀ (n i mi : ℕ) (md : ℤ), n = full.length - i →
      RawPtr.NearestAux full n i mi md =
        ((match (selNi (full.drop i) md).1 with | none => mi | some j => i + j),
         (selNi (full.drop i) md).2) := by
  intro n
  induction n with
  | zero =>
      intro i mi md hn
      have hdrop : full.drop i = [] := List.drop_eq_nil_of_le (by omega)
      rw [hdrop]
      rfl
  | succ n ih =>
      intro i mi md hn
      have hi : i < full.length := by omega
      have hdrop : full.drop i = full[i] :: full.drop (i + 1) :=
        List.drop_eq_getElem_cons hi
      have hget : full[i]? = some full[i] := List.getElem?_eq_getElem hi
      rw [hdrop]
      by_cases hlt : ManhattanToOrigin full[i] < md
      · have hstep : RawPtr.NearestAux full (n + 1) i mi md =
            RawPtr.NearestAux full n (i + 1) i (ManhattanToOrigin full[i]) := by
          simp [RawPtr.NearestAux, hget, hlt]
        rw [hstep, ih (i + 1) i (ManhattanToOrigin full[i]) (by omega),
          selNi_cons_lt hlt]
        rcases hsel : selNi (full.drop (i + 1)) (ManhattanToOrigin full[i])
          with ⟨o, d⟩
        simp only [hsel]
        rcases o with _ | j'
        · rfl
        · show ((i + 1 + j' : ℕ), d) = ((i + (j' + 1) : ℕ), d)
          rw [Prod.mk.injEq]
          exact ⟨by omega, rfl⟩
      · have hstep : RawPtr.NearestAux full (n + 1) i mi md =
            RawPtr.NearestAux full n (i + 1) mi md := by
          simp [RawPtr.NearestAux, hget, hlt]
        rw [hstep, ih (i + 1) mi md (by omega), selNi_cons_ge hlt]
        rcases hsel : selNi (full.drop (i + 1)) md with ⟨o, d⟩
        simp only [hsel]
        rcases o with _ | j'
        · rfl
        · show ((i + 1 + j' : ℕ), d) = ((i + (j' + 1) : ℕ), d)
          rw [Prod.mk.injEq]
          exact ⟨by omega, rfl⟩

/-! ## The two counting loops equal the spec-level count -/

/-- The parametric count at threshold `0.5f` is a `countP` with the source's
predicate (the two predicate names share one body, so this is definitional). -/
theorem countNearOrigin_half_eq (ps : List Point) :
    countNearOrigin (flit 1 2) ps = ps.countP Pos2dIsNearOrigin :=
  rfl

theorem countNearOrigin_half_eq_raw (ps : List Point) :
    countNearOrigin (flit 1 2) ps = ps.countP PointIsNearOrigin :=
  rfl

theorem Cpp11.CountLoop_eq : ∀ (ps : List Point) (n : ℕ),
    Cpp11.CountLoop ps n = n + ps.countP Pos2dIsNearOrigin := by
  intro ps
  induction ps with
  | nil => intro n; simp [Cpp11.CountLoop]
  | cons p ps ih =>
      intro n
      by_cases h : Pos2dIsNearOrigin p
      · have hstep : Cpp11.CountLoop (p :: ps) n = Cpp11.CountLoop ps (n + 1) := by
          simp [Cpp11.CountLoop, h]
        rw [hstep, ih, List.countP_cons]
        simp [h]
        try omega
      · have hstep : Cpp11.CountLoop (p :: ps) n = Cpp11.CountLoop ps n := by
          simp [Cpp11.CountLoop, h]
        rw [hstep, ih, List.countP_cons]
        simp [h]
        try omega

theorem RawPtr.CountAux_eq (full : List Point) :
    ∀ (n i cnt : ℕ), n = full.length - i →
      RawPtr.CountAux full n i cnt = cnt + (full.drop i).countP PointIsNearOrigin := by
  intro n
  induction n with
  | zero =>
      intro i cnt hn
      have hdrop : full.drop i = [] := List.drop_eq_nil_of_le (by omega)
      rw [hdrop]
      simp [RawPtr.CountAux]
  | succ n ih =>
      intro i cnt hn
      have hi : i < full.length := by omega
      have hdrop : full.drop i = full[i] :: full.drop (i + 1) :=
        List.drop_eq_getElem_cons hi
      have hget : full[i]? = some full[i] := List.getElem?_eq_getElem hi
      rw [hdrop]
      by_cases h : PointIsNearOrigin full[i]
      · have hstep : RawPtr.CountAux full (n + 1) i cnt =
            RawPtr.CountAux full n (i + 1) (cnt + 1) := by
          simp [RawPtr.CountAux, hget, h]
        rw [hstep, ih (i + 1) (cnt + 1) (by omega), List.countP_cons]
        simp [h]
        try omega
      · have hstep : RawPtr.CountAux full (n + 1) i cnt =
            RawPtr.CountAux full n (i + 1) cnt := by
          simp [RawPtr.CountAux, hget, h]
        rw [hstep, ih (i + 1) cnt (by omega), List.countP_cons]
        simp [h]
        try omega

/-! ## Claims -/

/-- Claim C1 (counterexample): called on the empty collection, the
`shared_ptr` variant's `NearestToOrigin` raises nothing — its embedding is
a total function with no error channel, faithfully to the C++, and it
returns the sentinel pair `(nullptr, FLT_MAX)` rather than propagating an
`EmptyInputError`. -/
theorem nearestToOrigin_empty_returns_sentinel :
    (Cpp11.NearestToOrigin []).1 = none ∧ (Cpp11.NearestToOrigin []).2 = floatMax :=
  ⟨rfl, rfl⟩

/-- Claim C1 (amended): on the empty collection `NearestToOrigin` raises no
error: the `shared_ptr` variant returns the sentinel `(nullptr, FLT_MAX)`,
and the raw-pointer variant leaves `min_index = 0`, `min_distance = FLT_MAX`
and then reads `points[0]` out of bounds (the `none` of `points[0]?` here). -/
theorem nearestToOrigin_empty_behaviour :
    Cpp11.NearestToOrigin [] = ((none : Option Point), floatMax) ∧
    RawPtr.NearestToOrigin [] = ((none : Option Point), floatMax) :=
  ⟨rfl, rfl⟩

/-- Claim C9: the `shared_ptr` variant's `NearestToOrigin` on the empty
collection returns the defined sentinel — a null point reference paired
with the maximum representable `float` — with no error raised and no
element access performed (the loop body never runs). -/
theorem cpp11_nearestToOrigin_empty :
    Cpp11.NearestToOrigin [] = ((none : Option Point), floatMax) :=
  rfl

/-- Claim C3: `ManhattanToOrigin` returns the float sum of the (exact)
absolute values of the two coordinates — it is a plain function of the
point, mirroring the side-effect-free C++ — and it is invariant under
negating either or both coordinates. -/
theorem manhattanToOrigin_abs_sign_symmetry (x y : ℤ) :
    ManhattanToOrigin ⟨x, y⟩ = fround (|x| + |y|) ∧
    ManhattanToOrigin ⟨-x, y⟩ = ManhattanToOrigin ⟨x, y⟩ ∧
    ManhattanToOrigin ⟨x, -y⟩ = ManhattanToOrigin ⟨x, y⟩ ∧
    ManhattanToOrigin ⟨-x, -y⟩ = ManhattanToOrigin ⟨x, y⟩ := by
  refine ⟨rfl, ?_, ?_, ?_⟩ <;> simp [ManhattanToOrigin, abs_neg]

/-- Claim C4: the near-origin classification holds exactly when the
Manhattan distance is strictly below the threshold `0.5f`, and a point
whose distance is exactly `0.5f` is not counted as near (both predicate
spellings of the source). -/
theorem pointIsNearOrigin_iff (p : Point) :
    (PointIsNearOrigin p = true ↔ ManhattanToOrigin p < flit 1 2) ∧
    (Pos2dIsNearOrigin p = true ↔ ManhattanToOrigin p < flit 1 2) ∧
    (ManhattanToOrigin p = flit 1 2 →
      PointIsNearOrigin p = false ∧ Pos2dIsNearOrigin p = false) := by
  refine ⟨by simp [PointIsNearOrigin], by simp [Pos2dIsNearOrigin], ?_⟩
  intro h
  constructor <;> simp [PointIsNearOrigin, Pos2dIsNearOrigin, h]

/-- Claim C4 (witness): a point at distance exactly `0.5f` from the origin
is not classified as near. -/
theorem pointIsNearOrigin_iff_witness :
    PointIsNearOrigin ⟨flit 1 2, 0⟩ = false ∧ Pos2dIsNearOrigin ⟨flit 1 2, 0⟩ = false :=
  (pointIsNearOrigin_iff ⟨flit 1 2, 0⟩).2.2 (by decide)

/-- Claim C5: on the deterministic collection
`[(0.1, 0.1), (0.9, 0.9), (-0.2, 0.1)]` with the `0.5` threshold, the
computed float distances are `0.2f`, `1.8f` and `0.3f`, both variants
count 2 points near the origin, and both variants' `NearestToOrigin`
return the first point `(0.1, 0.1)` with distance `0.2f`. -/
theorem scenario_three_points :
    ManhattanToOrigin ⟨flit 1 10, flit 1 10⟩ = flit 2 10 ∧
    ManhattanToOrigin ⟨flit 9 10, flit 9 10⟩ = flit 18 10 ∧
    ManhattanToOrigin ⟨flit (-2) 10, flit 1 10⟩ = flit 3 10 ∧
    Cpp11.nearOrigin
      [⟨flit 1 10, flit 1 10⟩, ⟨flit 9 10, flit 9 10⟩, ⟨flit (-2) 10, flit 1 10⟩] = 2 ∧
    RawPtr.nearOrigin
      [⟨flit 1 10, flit 1 10⟩, ⟨flit 9 10, flit 9 10⟩, ⟨flit (-2) 10, flit 1 10⟩] = 2 ∧
    Cpp11.NearestToOrigin
      [⟨flit 1 10, flit 1 10⟩, ⟨flit 9 10, flit 9 10⟩, ⟨flit (-2) 10, flit 1 10⟩] =
      (some ⟨flit 1 10, flit 1 10⟩, flit 2 10) ∧
    RawPtr.NearestToOrigin
      [⟨flit 1 10, flit 1 10⟩, ⟨flit 9 10, flit 9 10⟩, ⟨flit (-2) 10, flit 1 10⟩] =
      (some ⟨flit 1 10, flit 1 10⟩, flit 2 10) := by
  decide

/-- Claim C8: every value of the Random Number Source lies in the closed
interval [-1, 1].  (`RandomNumber` is modelled from the spec, as the
affine image of a unit-interval draw: the distribution algorithm lives in
the standard library, not in this repository.) -/
theorem randomNumber_mem_closed_interval (u : ℚ) (h0 : 0 ≤ u) (h1 : u ≤ 1) :
    -1 ≤ RandomNumber u ∧ RandomNumber u ≤ 1 := by
  unfold RandomNumber
  constructor <;> nlinarith

/-- Claim C8 (witness): the draw `u = 1/3` yields a value in [-1, 1]. -/
theorem randomNumber_mem_closed_interval_witness :
    -1 ≤ RandomNumber (1/3) ∧ RandomNumber (1/3) ≤ 1 :=
  randomNumber_mem_closed_interval (1/3) (by norm_num) (by norm_num)

/-- Claim C2 (counterexample), refuting the claim for both cited
implementations.  Shared_ptr variant: in `[(FLT_MAX, 0), (FLT_MAX, 0)]`
both points share the minimum Manhattan distance `FLT_MAX`, yet a null
point is returned — not the first minimiser — because no distance passes
the strict comparison against the `FLT_MAX` sentinel.  Raw-pointer
variant: in `[(FLT_MAX, FLT_MAX), (FLT_MAX, 0), (FLT_MAX, 0)]` the last
two points share the minimum `FLT_MAX` (the head's distance overflows past
`FLT_MAX`), yet `min_index` is never updated and `points[0]` — a
non-minimiser — is returned instead of the first minimiser `points[1]`. -/
theorem nearestToOrigin_tie_fltmax :
    ManhattanToOrigin ⟨floatMax, 0⟩ = floatMax ∧
    (Cpp11.NearestToOrigin [⟨floatMax, 0⟩, ⟨floatMax, 0⟩]).1 = none ∧
    (Cpp11.NearestToOrigin [⟨floatMax, 0⟩, ⟨floatMax, 0⟩]).1 ≠
      some ⟨floatMax, 0⟩ ∧
    floatMax < ManhattanToOrigin ⟨floatMax, floatMax⟩ ∧
    (RawPtr.NearestToOrigin
      [⟨floatMax, floatMax⟩, ⟨floatMax, 0⟩, ⟨floatMax, 0⟩]).1 =
      some ⟨floatMax, floatMax⟩ ∧
    (RawPtr.NearestToOrigin
      [⟨floatMax, floatMax⟩, ⟨floatMax, 0⟩, ⟨floatMax, 0⟩]).1 ≠
      some ⟨floatMax, 0⟩ := by
  decide

/-- Claim C2 (amended): whenever the point at index `i` achieves the
minimum Manhattan distance, that minimum is strictly below `FLT_MAX`, and
every earlier point has a different (hence strictly larger) distance — so
`i` is the first minimiser — both the `shared_ptr` and the raw-pointer
variant return exactly that point with its distance; in particular on
`[(1,0), (0,1)]` (both at distance `1.0f`) both return the first element
`(1,0)`. -/
theorem nearestToOrigin_first_argmin :
    (∀ (ps : List Point) (i : ℕ) (hi : i < ps.length),
      ManhattanToOrigin ps[i] < floatMax →
      (∀ j (hj : j < ps.length), ManhattanToOrigin ps[i] ≤ ManhattanToOrigin ps[j]) →
      (∀ j (hj : j < i), ManhattanToOrigin ps[j] ≠ ManhattanToOrigin ps[i]) →
      Cpp11.NearestToOrigin ps = (some ps[i], ManhattanToOrigin ps[i]) ∧
      RawPtr.NearestToOrigin ps = (some ps[i], ManhattanToOrigin ps[i])) ∧
    Cpp11.NearestToOrigin [⟨flit 1 1, 0⟩, ⟨0, flit 1 1⟩] =
      (some ⟨flit 1 1, 0⟩, flit 1 1) ∧
    RawPtr.NearestToOrigin [⟨flit 1 1, 0⟩, ⟨0, flit 1 1⟩] =
      (some ⟨flit 1 1, 0⟩, flit 1 1) := by
  constructor
  · intro ps i hi hmax hmin hfirst
    rcases hsel : selNi ps floatMax with ⟨o, m⟩
    have h1 : (selNi ps floatMax).1 = o := by rw [hsel]
    have h2 : (selNi ps floatMax).2 = m := by rw [hsel]
    rcases o with _ | j
    · obtain ⟨hsnd, hall⟩ := (selNi_spec ps floatMax).1 h1
      exact absurd hmax (hall i hi)
    · obtain ⟨hj, hdist, hlt, ha, hb⟩ := (selNi_spec ps floatMax).2 j h1
      rw [h2] at hdist hlt ha hb
      have hmi : ManhattanToOrigin ps[i] = m := by
        have hub := ha i hi
        have hlb := hmin j hj
        omega
      have hji : j = i := by
        rcases Nat.lt_trichotomy j i with hc | hc | hc
        · have hne := hfirst j hc
          omega
        · exact hc
        · have := hb i hc
          omega
      subst hji
      constructor
      · show Cpp11.NearestLoop ps (none, floatMax) = _
        rw [Cpp11.NearestLoop_selNi ps none floatMax, hsel]
        show (ps[j]?, m) = (some ps[j], ManhattanToOrigin ps[j])
        rw [List.getElem?_eq_getElem hj, Prod.mk.injEq]
        exact ⟨rfl, hmi.symm⟩
      · have hraw := RawPtr.NearestAux_selNi ps ps.length 0 0 floatMax (by omega)
        simp only [List.drop_zero] at hraw
        rw [hsel] at hraw
        show (ps[(RawPtr.NearestAux ps ps.length 0 0 floatMax).1]?,
              (RawPtr.NearestAux ps ps.length 0 0 floatMax).2) =
          (some ps[j], ManhattanToOrigin ps[j])
        rw [hraw]
        show (ps[0 + j]?, m) = (some ps[j], ManhattanToOrigin ps[j])
        rw [Nat.zero_add, List.getElem?_eq_getElem hj, Prod.mk.injEq]
        exact ⟨rfl, hmi.symm⟩
  · exact ⟨by decide, by decide⟩

/-- Claim C2 (witness): the singleton `[(1,0)]` satisfies all hypotheses at
index 0 and both variants' searches return `(1,0)` with its distance. -/
theorem nearestToOrigin_first_argmin_witness :
    Cpp11.NearestToOrigin [(⟨flit 1 1, 0⟩ : Point)] =
      (some (⟨flit 1 1, 0⟩ : Point), ManhattanToOrigin ⟨flit 1 1, 0⟩) ∧
    RawPtr.NearestToOrigin [(⟨flit 1 1, 0⟩ : Point)] =
      (some (⟨flit 1 1, 0⟩ : Point), ManhattanToOrigin ⟨flit 1 1, 0⟩) :=
  nearestToOrigin_first_argmin.1 [⟨flit 1 1, 0⟩] 0 (by decide) (by decide)
    (by decide) (by decide)

/-- Claim C6 (counterexample): on the singleton `[(FLT_MAX, 0)]`, whose
point has Manhattan distance exactly `FLT_MAX`, the `shared_ptr` variant
does not return `(p, ManhattanToOrigin p)`: it returns the untouched
sentinel `(nullptr, FLT_MAX)`, because `FLT_MAX < FLT_MAX` fails. -/
theorem nearestToOrigin_singleton_fltmax :
    Cpp11.NearestToOrigin [⟨floatMax, 0⟩] ≠
      (some ⟨floatMax, 0⟩, ManhattanToOrigin ⟨floatMax, 0⟩) := by
  decide

/-- Claim C6 (amended): for every singleton `[p]` whose Manhattan distance
is strictly below `FLT_MAX`, both variants return the pair of `p` itself
and `ManhattanToOrigin p`. -/
theorem nearestToOrigin_singleton (p : Point)
    (h : ManhattanToOrigin p < floatMax) :
    Cpp11.NearestToOrigin [p] = (some p, ManhattanToOrigin p) ∧
    RawPtr.NearestToOrigin [p] = (some p, ManhattanToOrigin p) := by
  constructor
  · show Cpp11.NearestLoop [p] (none, floatMax) = _
    simp [Cpp11.NearestLoop, h]
  · show (([p] : List Point)[(RawPtr.NearestAux [p] 1 0 0 floatMax).1]?,
          (RawPtr.NearestAux [p] 1 0 0 floatMax).2) = _
    simp [RawPtr.NearestAux, h]

/-- Claim C6 (witness): the singleton `[(0,0)]` — distance `0 < FLT_MAX` —
is returned as the nearest point by both variants. -/
theorem nearestToOrigin_singleton_witness :
    Cpp11.NearestToOrigin [(⟨0, 0⟩ : Point)] =
      (some (⟨0, 0⟩ : Point), ManhattanToOrigin ⟨0, 0⟩) ∧
    RawPtr.NearestToOrigin [(⟨0, 0⟩ : Point)] =
      (some (⟨0, 0⟩ : Point), ManhattanToOrigin ⟨0, 0⟩) :=
  nearestToOrigin_singleton ⟨0, 0⟩ (by decide)

/-- Claim C7: for every collection and every threshold the near-origin
count is at most the collection's size, and for every threshold ≤ 0 it is
zero (for all points, including the zero point, since float distances are
nonnegative).  The hard-coded counting loops of both source variants agree
with the parametric count at the threshold `0.5f`. -/
theorem countNearOrigin_bounds (t : ℤ) (ps : List Point) :
    countNearOrigin t ps ≤ ps.length ∧
    (t ≤ 0 → countNearOrigin t ps = 0) ∧
    Cpp11.nearOrigin ps = countNearOrigin (flit 1 2) ps ∧
    RawPtr.nearOrigin ps = countNearOrigin (flit 1 2) ps := by
  refine ⟨List.countP_le_length _, ?_, ?_, ?_⟩
  · intro ht
    simp only [countNearOrigin]
    rw [List.countP_eq_zero]
    intro p _
    have h0 := manhattan_nonneg p
    simp only [decide_eq_true_eq]
    omega
  · rw [countNearOrigin_half_eq]
    show Cpp11.CountLoop ps 0 = ps.countP Pos2dIsNearOrigin
    rw [Cpp11.CountLoop_eq]
    omega
  · rw [countNearOrigin_half_eq_raw]
    show RawPtr.CountAux ps ps.length 0 0 = ps.countP PointIsNearOrigin
    rw [RawPtr.CountAux_eq ps ps.length 0 0 (by omega)]
    simp

/-- Claim C7 (witness): at the nonpositive threshold `-1` the count over
`[(1,1)]` is zero and of course at most the length. -/
theorem countNearOrigin_bounds_witness :
    countNearOrigin (-1) [(⟨flit 1 1, flit 1 1⟩ : Point)] = 0 ∧
    countNearOrigin (-1) [(⟨flit 1 1, flit 1 1⟩ : Point)] ≤ 1 :=
  ⟨(countNearOrigin_bounds (-1) [⟨flit 1 1, flit 1 1⟩]).2.1 (by norm_num),
   (countNearOrigin_bounds (-1) [⟨flit 1 1, flit 1 1⟩]).1⟩

/-- Claim C10: for every nonempty sequence of points with generated
coordinates (each in `[-1, 1]`, as the Point Generator produces), the
raw-pointer and `shared_ptr` variants compute the same near-origin count
and the same minimum distance, and select the nearest point at the same
collection index: the raw variant's final `min_index` is an in-range `i`
such that both variants' results are `points[i]` with that distance. -/
theorem variants_equivalent (ps : List Point) (hne : ps ≠ [])
    (hgen : ∀ p ∈ ps, |p.x| ≤ flit 1 1 ∧ |p.y| ≤ flit 1 1) :
    RawPtr.nearOrigin ps = Cpp11.nearOrigin ps ∧
    (RawPtr.NearestToOrigin ps).2 = (Cpp11.NearestToOrigin ps).2 ∧
    ∃ (i : ℕ) (hi : i < ps.length),
      (RawPtr.NearestAux ps ps.length 0 0 floatMax).1 = i ∧
      (RawPtr.NearestToOrigin ps).1 = some ps[i] ∧
      (Cpp11.NearestToOrigin ps).1 = some ps[i] := by
  have hcounts : RawPtr.nearOrigin ps = Cpp11.nearOrigin ps := by
    show RawPtr.CountAux ps ps.length 0 0 = Cpp11.CountLoop ps 0
    rw [RawPtr.CountAux_eq ps ps.length 0 0 (by omega), Cpp11.CountLoop_eq]
    simp only [List.drop_zero]
    rfl
  obtain ⟨p0, ps', rfl⟩ : ∃ p0 ps', ps = p0 :: ps' := by
    cases ps with
    | nil => exact absurd rfl hne
    | cons a l => exact ⟨a, l, rfl⟩
  have hd0 : ManhattanToOrigin p0 < floatMax := by
    obtain ⟨hx, hy⟩ := hgen p0 (by simp)
    exact manhattan_lt_floatMax hx hy
  have hraw := RawPtr.NearestAux_selNi (p0 :: ps') (p0 :: ps').length 0 0 floatMax
    (by omega)
  have hcpp := Cpp11.NearestLoop_selNi (p0 :: ps') none floatMax
  simp only [List.drop_zero] at hraw
  rcases hsel : selNi (p0 :: ps') floatMax with ⟨o, m⟩
  have h1 : (selNi (p0 :: ps') floatMax).1 = o := by rw [hsel]
  rcases o with _ | j
  · obtain ⟨hsnd, hall⟩ := (selNi_spec (p0 :: ps') floatMax).1 h1
    have h0 := hall 0 (by simp)
    simp only [List.getElem_cons_zero] at h0
    exact absurd hd0 h0
  · obtain ⟨hj, hdist, hlt, ha, hb⟩ := (selNi_spec (p0 :: ps') floatMax).2 j h1
    rw [hsel] at hraw hcpp
    refine ⟨hcounts, ?_, j, hj, ?_, ?_, ?_⟩
    · show (RawPtr.NearestAux (p0 :: ps') (p0 :: ps').length 0 0 floatMax).2 =
        (Cpp11.NearestLoop (p0 :: ps') (none, floatMax)).2
      rw [hraw, hcpp]
    · show (RawPtr.NearestAux (p0 :: ps') (p0 :: ps').length 0 0 floatMax).1 = j
      rw [hraw]
      show 0 + j = j
      omega
    · show (p0 :: ps')[(RawPtr.NearestAux (p0 :: ps') (p0 :: ps').length 0 0
          floatMax).1]? = some (p0 :: ps')[j]
      rw [hraw]
      show (p0 :: ps')[0 + j]? = some (p0 :: ps')[j]
      rw [Nat.zero_add]
      exact List.getElem?_eq_getElem hj
    · show (Cpp11.NearestLoop (p0 :: ps') (none, floatMax)).1 = some (p0 :: ps')[j]
      rw [hcpp]
      show (p0 :: ps')[j]? = some (p0 :: ps')[j]
      exact List.getElem?_eq_getElem hj

/-- Claim C10 (witness): on the singleton `[(0,0)]` (coordinates in
`[-1,1]`) the two variants return identical results and counts. -/
theorem variants_equivalent_witness :
    RawPtr.NearestToOrigin [(⟨0, 0⟩ : Point)] = Cpp11.NearestToOrigin [(⟨0, 0⟩ : Point)] ∧
    RawPtr.nearOrigin [(⟨0, 0⟩ : Point)] = Cpp11.nearOrigin [(⟨0, 0⟩ : Point)] := by
  obtain ⟨hc, hsnd, i, hi, hidx, hraw1, hcpp1⟩ :=
    variants_equivalent [⟨0, 0⟩] (by decide) (by decide)
  refine ⟨?_, hc⟩
  have hfst : (RawPtr.NearestToOrigin [(⟨0, 0⟩ : Point)]).1 =
      (Cpp11.NearestToOrigin [(⟨0, 0⟩ : Point)]).1 := by rw [hraw1, hcpp1]
  exact Prod.ext_iff.mpr ⟨hfst, hsnd⟩
